import Mathlib

/-!
Shallow embedding of the `nsq-py` client core (`nsq/client.py`) and the
parts of its collaborators that the client touches.  The functions in the
`Client` namespace are translated line by line from `nsq/client.py`; the
`Conn` structure and its primitive operations stand for `nsq/connection.py`
and `nsq/response.py`, which are not part of the sources at hand, and are
modelled from the specification where noted.
-/

set_option autoImplicit false

namespace NsqPy

/-- Commands the client can enqueue on a connection (`nsq/constants.py` /
connection send wrappers).  Only `nop` matters for the client loop; the
rest are listed for completeness. -/
inductive Cmd where
  | nop
  | sub (topic channel : String)
  | rdy (n : Nat)
  | fin (id : String)
  | req (id : String) (timeout : Nat)
  | touch (id : String)
  | pub (topic : String) (body : String)
  | cls
deriving DecidableEq

/-- Modelled from the spec: the closed enumeration of server error kinds,
including the non-fatal trio `FinFailed`, `ReqFailed`, `TouchFailed`
(`nsq/exceptions.py` is not among the sources). -/
inductive ErrKind where
  | finFailed
  | reqFailed
  | touchFailed
  | invalid
  | badTopic
  | badChannel
  | badMessage
  | pubFailed
  | fatalUnknown (detail : String)
deriving DecidableEq

/-- Modelled from the spec: the payload of a decoded frame, a tagged
variant Response / Error / Message (`nsq/response.py` is not among the
sources; the spec gives the tagged-variant shape and the message fields). -/
inductive FrameData where
  | response (data : String)
  | error (kind : ErrKind)
  | message (timestamp : Nat) (attempts : Nat) (id : String) (body : String)
deriving DecidableEq

/-- Canonical key of a connection in the client table: `(host, port)`. -/
abbrev Key := String × Nat

/-- A frame as the client loop returns it: the decoded payload together
with the `(host, port)` of the connection that delivered it (the source
response objects carry a back-reference to their connection). -/
structure Frame where
  origin : Key
  data : FrameData
deriving DecidableEq

/-- Modelled from the spec: one TCP session to one nsqd
(`nsq/connection.py` is not among the sources).  `out_buffer` is the
append-only queue of enqueued commands, with `flushed` counting the prefix
already written to the socket (the spec calls `out_buffer` append-only and
`pending()` true iff it has unsent bytes).  `frames` is the sequence the
next `read()` will yield, and `readErr` says that this `read()` raises an
`NSQException` after yielding them.  `reconnects` counts calls to
`Connection.connect` (reopen attempts). -/
structure Conn where
  host : String
  port : Nat
  id : Nat
  alive : Bool
  out_buffer : List Cmd
  flushed : Nat
  frames : List FrameData
  readErr : Bool
  reconnects : Nat
  blocking : Bool
  identify_options : List (String × String)
deriving DecidableEq

/-- Modelled from the spec: the `Connection` constructor opens the socket,
performs the identify handshake and comes up alive. -/
def Conn.new (host : String) (port : Nat) (id : Nat)
    (identify : List (String × String)) : Conn :=
  { host := host, port := port, id := id, alive := true, out_buffer := [],
    flushed := 0, frames := [], readErr := false, reconnects := 0,
    blocking := true, identify_options := identify }

/-- Modelled from the spec: `close()` is a best-effort socket shutdown
that sets `alive` false. -/
def Conn.close (c : Conn) : Conn :=
  { c with alive := false }

/-- Modelled from the spec: `send(cmd)` appends an encoded command to
`out_buffer`. -/
def Conn.send (c : Conn) (cmd : Cmd) : Conn :=
  { c with out_buffer := c.out_buffer ++ [cmd] }

/-- Modelled from the spec: `nop()` is a `send` wrapper. -/
def Conn.nop (c : Conn) : Conn :=
  c.send Cmd.nop

/-- Modelled from the spec: `flush()` writes as much of `out_buffer` as
the socket will take; we model the socket as accepting everything, and
keep the buffer as an append-only log with a write cursor. -/
def Conn.flush (c : Conn) : Conn :=
  { c with flushed := c.out_buffer.length }

/-- Modelled from the spec: `Connection.connect` reopens the session (the
client calls it on a discovered, present but dead connection); we count
the reopen attempts. -/
def Conn.connect (c : Conn) : Conn :=
  { c with alive := true, reconnects := c.reconnects + 1 }

/-- Modelled from the spec: `setblocking` switches the socket blocking
mode. -/
def Conn.setblocking (c : Conn) (b : Bool) : Conn :=
  { c with blocking := b }

/-- Modelled from the spec: `pending()` is true iff `out_buffer` has
unsent bytes. -/
def Conn.pending (c : Conn) : Bool :=
  c.flushed < c.out_buffer.length

/-- Modelled from the spec: the heartbeat marker is the literal ASCII
`_heartbeat_` (`nsq/constants.py` is not among the sources). -/
def hbMark : String := "_heartbeat_"

/-- Whether a decoded payload is a heartbeat Response
(`isinstance(res, Response) and res.data == HEARTBEAT`). -/
def FrameData.isHb : FrameData → Bool
  | .response d => d = hbMark
  | _ => false

/-- The non-fatal trio: `res.exception()` being one of
`FinFailedException`, `ReqFailedException`, `TouchFailedException`. -/
def ErrKind.nonFatal : ErrKind → Bool
  | .finFailed => true
  | .reqFailed => true
  | .touchFailed => true
  | _ => false

/-- Whether a payload is an Error of a fatal (not in the trio) kind. -/
def FrameData.isFatalErr : FrameData → Bool
  | .error k => !k.nonFatal
  | _ => false

/-! The connection table: an association list keyed by `(host, port)`,
standing for the Python dict `self._connections` (insertion order kept). -/

abbrev Tbl := List (Key × Conn)

/-- Dict lookup `self._connections.get(key)`. -/
def lookupConn : Tbl → Key → Option Conn
  | [], _ => none
  | kv :: rest, k => if kv.1 = k then some kv.2 else lookupConn rest k

/-- In-place mutation of the connection object stored at a key (Python
mutates the shared object; here we replace the stored value). -/
def updateConn (tbl : Tbl) (k : Key) (c : Conn) : Tbl :=
  tbl.map (fun kv => if kv.1 = k then (kv.1, c) else kv)

/-- Dict `pop(key, None)`: drop any entry at the key. -/
def eraseKey (tbl : Tbl) (k : Key) : Tbl :=
  tbl.filter (fun kv => !decide (kv.1 = k))

/-- The mutable state of a `Client` (`nsq/client.py`, `__init__`):
identify options, the connection table, the select timeout, the list of
lookupd addresses, the topic, the static nsqd addresses.  `nextId` is a
fresh-identity supply for newly constructed connection objects. -/
structure ClientState where
  identify_options : List (String × String)
  connections : Tbl
  timeout : Nat
  lookupd : List String
  topic : Option String
  nsqd_tcp_addresses : List Key
  nextId : Nat
deriving DecidableEq

/-- The response of one nsqlookupd to `lookup(topic)`: either the decoded
producer list or a `ClientException` from the HTTP layer. -/
abbrev LookupFn := String → Option String → Except Unit (List Key)

namespace Client

/-- `Client.add` (`client.py` 100-108): insert under lock if the
`(host, port)` key is absent and return the connection, else return
`None` and leave the table alone. -/
def add (st : ClientState) (c : Conn) : ClientState × Option Conn :=
  let key : Key := (c.host, c.port)
  match lookupConn st.connections key with
  | none => ({ st with connections := st.connections ++ [(key, c)] }, some c)
  | some _ => (st, none)

/-- `Client.connect` (`client.py` 88-93): construct a `Connection`, switch
it non-blocking, `add` it, and return the constructed object (whatever
`add` said). -/
def connect (st : ClientState) (host : String) (port : Nat) :
    ClientState × Conn :=
  let conn := (Conn.new host port st.nextId st.identify_options).setblocking false
  let st₁ := { st with nextId := st.nextId + 1 }
  ((add st₁ conn).1, conn)

/-- `Client.remove` (`client.py` 110-119): pop the `(host, port)` entry
under lock, then close whatever was found; a miss makes
`close_connection(None)` raise, which the `except` swallows after
logging, so `remove` itself never raises and returns `None`. -/
def remove (st : ClientState) (c : Conn) : ClientState × Option Conn :=
  let key : Key := (c.host, c.port)
  let found := lookupConn st.connections key
  ({ st with connections := eraseKey st.connections key }, found.map Conn.close)

/-- The merged producer list of `Client.discover` (`client.py` 43-51):
each lookupd is queried in turn; a `ClientException` is logged and that
source contributes nothing. -/
def mergedProducers (f : LookupFn) (topic : Option String) :
    List String → List Key
  | [] => []
  | l :: rest =>
    (match f l topic with
     | .ok ps => ps
     | .error _ => []) ++ mergedProducers f topic rest

/-- The per-producer loop of `Client.discover` (`client.py` 53-66): an
absent endpoint is connected (and collected as new), a present but dead
one is reconnected in place via `conn.connect()`, a live one is left
alone. -/
def discoverLoop : ClientState → List Key → ClientState × List Conn
  | st, [] => (st, [])
  | st, hp :: rest =>
    match lookupConn st.connections hp with
    | none =>
      let p := connect st hp.1 hp.2
      let q := discoverLoop p.1 rest
      (q.1, p.2 :: q.2)
    | some c =>
      if c.alive then discoverLoop st rest
      else
        discoverLoop
          { st with connections := updateConn st.connections hp c.connect }
          rest

/-- `Client.discover` (`client.py` 41-66).  The final source line filters
the collected list to truthy entries; `connect` always returns a
connection object, so the filter keeps everything and is omitted. -/
def discover (f : LookupFn) (topic : Option String) (st : ClientState) :
    ClientState × List Conn :=
  discoverLoop st (mergedProducers f topic st.lookupd)

/-- The static-address loop of `Client.check_connections` (`client.py`
74-86): connect to an absent endpoint; a present endpoint — alive or not —
is left exactly as it is (the dead branch is an explicit `pass`). -/
def staticLoop : ClientState → List Key → ClientState
  | st, [] => st
  | st, hp :: rest =>
    match lookupConn st.connections hp with
    | none => staticLoop (connect st hp.1 hp.2).1 rest
    | some _ => staticLoop st rest

/-- `Client.check_connections` (`client.py` 68-86): run discovery when
lookupd instances are configured, then walk the static addresses. -/
def check_connections (f : LookupFn) (st : ClientState) : ClientState :=
  let st₁ := if st.lookupd.isEmpty then st else (discover f st.topic st).1
  staticLoop st₁ st₁.nsqd_tcp_addresses

end Client

/-- Construction-time failure of `Client.__init__`: the
`assert topic` guard (the spec calls it `InvalidConfig`). -/
inductive InitError where
  | invalidConfig
deriving DecidableEq

/-- Python truthiness of an optional list argument (`None` and `[]` are
falsy). -/
def truthyList {α : Type} : Option (List α) → Bool
  | none => false
  | some l => !l.isEmpty

/-- Python truthiness of an optional string argument (`None` and `''` are
falsy). -/
def truthyStr : Option String → Bool
  | none => false
  | some s => !decide (s = "")

/-- `Client.__init__` (`client.py` 16-39): if lookupd addresses are given
(truthy), `assert topic`; then build the state and run
`check_connections()`. -/
def clientInit (f : LookupFn) (lookupd_http_addresses : Option (List String))
    (nsqd_tcp_addresses : Option (List Key)) (topic : Option String)
    (timeout : Nat) (identify : List (String × String)) :
    Except InitError ClientState :=
  if truthyList lookupd_http_addresses && !truthyStr topic then
    .error .invalidConfig
  else
    .ok (Client.check_connections f
      { identify_options := identify
        connections := []
        timeout := timeout
        lookupd := lookupd_http_addresses.getD []
        topic := topic
        nsqd_tcp_addresses := nsqd_tcp_addresses.getD []
        nextId := 0 })

/-! The readiness step (`Client.read`, `client.py` 129-184). -/

/-- What one call to `select.select` reports, with connections named by
their table key. -/
structure SelectResult where
  readable : List Key
  writable : List Key
  exceptable : List Key
deriving DecidableEq

/-- The readiness oracle: given the live list, the write-watch list and
the timeout, it names the readable, writable and exceptional
connections. -/
abbrev Selector := List Conn → List Conn → Nat → SelectResult

/-- The live snapshot `[c for c in self.connections() if c.alive()]`. -/
def liveConns (st : ClientState) : List Conn :=
  (st.connections.map Prod.snd).filter (fun c => c.alive)

/-- The per-frame body of the drain loop (`client.py` 152-170): a
heartbeat Response enqueues a `NOP` and is dropped; an Error of a kind
outside the non-fatal trio closes the connection; every non-heartbeat
frame is appended, tagged with its origin. -/
def Conn.stepFrame (c : Conn) (fd : FrameData) : Conn × Option Frame :=
  match fd with
  | .response d =>
    if d = hbMark then (c.nop, none)
    else (c, some ⟨(c.host, c.port), .response d⟩)
  | .error k =>
    if k.nonFatal then (c, some ⟨(c.host, c.port), .error k⟩)
    else (c.close, some ⟨(c.host, c.port), .error k⟩)
  | .message t a i b => (c, some ⟨(c.host, c.port), .message t a i b⟩)

/-- The drain loop `for res in conn.read()` over an explicit frame
list. -/
def Conn.processFrames : Conn → List FrameData → Conn × List Frame
  | c, [] => (c, [])
  | c, fd :: rest =>
    let p := Conn.stepFrame c fd
    let q := Conn.processFrames p.1 rest
    (q.1, p.2.toList ++ q.2)

/-- One full drain of a readable connection (`client.py` 150-173):
consume this read's frames; if `read()` raised an `NSQException` after
them, close the connection (the frames already appended stay). -/
def Conn.drain (c : Conn) : Conn × List Frame :=
  let p := Conn.processFrames { c with frames := [] } c.frames
  if c.readErr then (p.1.close, p.2) else p

namespace Client

/-- The readable loop of `Client.read` (`client.py` 150-173): drain each
readable connection in select order, accumulating responses.  A key
absent from the table is skipped (Python's readable list only ever holds
table members). -/
def readFrom : ClientState → List Key → ClientState × List Frame
  | st, [] => (st, [])
  | st, k :: rest =>
    match lookupConn st.connections k with
    | none => readFrom st rest
    | some c =>
      let p := Conn.drain c
      let q := readFrom
        { st with connections := updateConn st.connections k p.1 } rest
      (q.1, p.2 ++ q.2)

/-- The writable loop of `Client.read` (`client.py` 176-177): flush each
writable connection once. -/
def flushAll : ClientState → List Key → ClientState
  | st, [] => st
  | st, k :: rest =>
    match lookupConn st.connections k with
    | none => flushAll st rest
    | some c =>
      flushAll { st with connections := updateConn st.connections k c.flush }
        rest

/-- The exceptional loop of `Client.read` (`client.py` 181-182): close
each exceptional connection. -/
def closeAll : ClientState → List Key → ClientState
  | st, [] => st
  | st, k :: rest =>
    match lookupConn st.connections k with
    | none => closeAll st rest
    | some c =>
      closeAll { st with connections := updateConn st.connections k c.close }
        rest

/-- `Client.read` (`client.py` 129-184): snapshot the live connections —
none means return `[]` at once, before any socket work; build the
write-watch list; ask the readiness oracle; a full timeout returns `[]`;
otherwise drain the readable, flush the writable, close the exceptional,
and return the accumulated frames. -/
def read (sel : Selector) (st : ClientState) : ClientState × List Frame :=
  let live := liveConns st
  if live.isEmpty then (st, [])
  else
    let r := sel live (live.filter Conn.pending) st.timeout
    if r.readable.isEmpty && r.writable.isEmpty && r.exceptable.isEmpty then
      (st, [])
    else
      let p := readFrom st r.readable
      (closeAll (flushAll p.1 r.writable) r.exceptable, p.2)

end Client

/-- The responses contributed by a single readable key, computed against
one fixed state. -/
def drainAt (st : ClientState) (k : Key) : List Frame :=
  match lookupConn st.connections k with
  | none => []
  | some c => (Conn.drain c).2

/-- The responses contributed by each readable key, computed against one
fixed state. -/
def drainOut (st : ClientState) : List Key → List Frame
  | [] => []
  | k :: rest => drainAt st k ++ drainOut st rest

/-- The connection table is well keyed: every stored connection sits under
its own `(host, port)`.  Every table built through `add` has this shape. -/
def WellKeyed (st : ClientState) : Prop :=
  ∀ kv ∈ st.connections, (kv.2.host, kv.2.port) = kv.1

/-! Concrete material used to exercise the theorems on closed inputs. -/

/-- A dead connection sitting at `("h", 1)`. -/
def cDead : Conn :=
  { host := "h", port := 1, id := 0, alive := false, out_buffer := [],
    flushed := 0, frames := [], readErr := false, reconnects := 0,
    blocking := false, identify_options := [] }

/-- A live connection at `("h", 1)` whose next read yields a heartbeat, a
non-fatal error, and a message. -/
def cRead : Conn :=
  { host := "h", port := 1, id := 0, alive := true,
    out_buffer := [Cmd.rdy 1], flushed := 1,
    frames := [FrameData.response hbMark, FrameData.error ErrKind.finFailed,
      FrameData.message 0 0 "m" "body"],
    readErr := false, reconnects := 0, blocking := false,
    identify_options := [] }

/-- A live connection at `("x", 2)`, absent from the sample tables. -/
def cAbs : Conn :=
  { host := "x", port := 2, id := 7, alive := true, out_buffer := [],
    flushed := 0, frames := [], readErr := false, reconnects := 0,
    blocking := false, identify_options := [] }

/-- A client holding only the dead connection: its live set is empty. -/
def stNoLive : ClientState :=
  { identify_options := [], connections := [(("h", 1), cDead)], timeout := 1,
    lookupd := [], topic := none, nsqd_tcp_addresses := [], nextId := 1 }

/-- A client with one lookupd and the dead connection in its table. -/
def stC1 : ClientState :=
  { identify_options := [], connections := [(("h", 1), cDead)], timeout := 1,
    lookupd := ["l"], topic := some "t", nsqd_tcp_addresses := [], nextId := 1 }

/-- A lookupd oracle that reports the dead connection's endpoint as a
producer. -/
def fC1 : LookupFn := fun _ _ => .ok [("h", 1)]

/-- A client holding the live `cRead` connection. -/
def stRead : ClientState :=
  { identify_options := [], connections := [(("h", 1), cRead)], timeout := 1,
    lookupd := [], topic := none, nsqd_tcp_addresses := [], nextId := 1 }

/-- A readiness oracle reporting `("h", 1)` readable. -/
def selRead : Selector := fun _ _ _ => ⟨[("h", 1)], [], []⟩

/-- A readiness oracle reporting nothing at all. -/
def selNone : Selector := fun _ _ _ => ⟨[], [], []⟩

/-- A client with lookupd list `["a", "bad", "b"]` and an empty table. -/
def stC9 : ClientState :=
  { identify_options := [], connections := [], timeout := 1,
    lookupd := ["a", "bad", "b"], topic := some "t",
    nsqd_tcp_addresses := [], nextId := 0 }

/-- The same client without the failing lookupd. -/
def stC9' : ClientState :=
  { identify_options := [], connections := [], timeout := 1,
    lookupd := ["a", "b"], topic := some "t",
    nsqd_tcp_addresses := [], nextId := 0 }

/-- A lookupd oracle where only `"bad"` raises. -/
def fC9 : LookupFn :=
  fun l _ => if l = "bad" then .error () else .ok [(l, 1)]

/-! Association-table lemmas. -/

theorem lookupConn_append_left {tbl₁ tbl₂ : Tbl} {k : Key} {c : Conn}
    (h : lookupConn tbl₁ k = some c) :
    lookupConn (tbl₁ ++ tbl₂) k = some c := by
  induction tbl₁ with
  | nil => simp [lookupConn] at h
  | cons kv rest ih =>
    by_cases hk : kv.1 = k
    · simpa [lookupConn, hk] using h
    · simp only [lookupConn, hk, if_false, List.cons_append] at h ⊢
      exact ih h

theorem lookupConn_append_right {tbl₁ tbl₂ : Tbl} {k : Key}
    (h : lookupConn tbl₁ k = none) :
    lookupConn (tbl₁ ++ tbl₂) k = lookupConn tbl₂ k := by
  induction tbl₁ with
  | nil => simp
  | cons kv rest ih =>
    by_cases hk : kv.1 = k
    · simp [lookupConn, hk] at h
    · simp only [lookupConn, hk, if_false, List.cons_append] at h ⊢
      exact ih h

theorem lookupConn_update_self {tbl : Tbl} {k : Key} {c₀ c : Conn}
    (h : lookupConn tbl k = some c₀) :
    lookupConn (updateConn tbl k c) k = some c := by
  induction tbl with
  | nil => simp [lookupConn] at h
  | cons kv rest ih =>
    by_cases hk : kv.1 = k
    · simp [lookupConn, updateConn, hk]
    · simp only [lookupConn, updateConn, hk, if_false, List.map_cons] at h ⊢
      exact ih h

theorem lookupConn_update_ne {tbl : Tbl} {k k' : Key} {c : Conn}
    (h : k' ≠ k) :
    lookupConn (updateConn tbl k c) k' = lookupConn tbl k' := by
  induction tbl with
  | nil => rfl
  | cons kv rest ih =>
    simp only [updateConn, List.map_cons] at ih ⊢
    by_cases hk : kv.1 = k
    · have hne : ¬ kv.1 = k' := by
        rw [hk]
        exact fun hc => h hc.symm
      rw [if_pos hk]
      simp only [lookupConn]
      rw [if_neg hne, if_neg hne]
      exact ih
    · rw [if_neg hk]
      simp only [lookupConn]
      by_cases hk' : kv.1 = k'
      · rw [if_pos hk', if_pos hk']
      · rw [if_neg hk', if_neg hk']
        exact ih

theorem eraseKey_of_lookup_none {tbl : Tbl} {k : Key}
    (h : lookupConn tbl k = none) :
    eraseKey tbl k = tbl := by
  induction tbl with
  | nil => rfl
  | cons kv rest ih =>
    by_cases hk : kv.1 = k
    · simp [lookupConn, hk] at h
    · simp only [lookupConn, hk, if_false] at h
      simp only [eraseKey] at ih ⊢
      rw [List.filter_cons_of_pos (by simp [hk]), ih h]

theorem lookupConn_mem {tbl : Tbl} {k : Key} {c : Conn}
    (h : lookupConn tbl k = some c) : (k, c) ∈ tbl := by
  induction tbl with
  | nil => simp [lookupConn] at h
  | cons kv rest ih =>
    simp only [lookupConn] at h
    split at h
    case isTrue hk =>
      have h2 : kv.2 = c := by injection h
      exact List.mem_cons.mpr
        (Or.inl (Prod.ext_iff.mpr ⟨hk.symm, h2.symm⟩))
    case isFalse hk =>
      exact List.mem_cons_of_mem _ (ih h)

/-! Drain-loop lemmas: closed forms for the connection left behind and the
frames emitted by one drain. -/

theorem Conn.processFrames_fst (l : List FrameData) (c : Conn) :
    (Conn.processFrames c l).1 =
      { c with
        out_buffer :=
          c.out_buffer ++ List.replicate (l.countP (fun fd => fd.isHb)) Cmd.nop,
        alive := c.alive && !(l.any (fun fd => fd.isFatalErr)) } := by
  induction l generalizing c with
  | nil => simp [Conn.processFrames]
  | cons fd rest ih =>
    cases fd with
    | response d =>
      by_cases h : d = hbMark
      · simp [Conn.processFrames, Conn.stepFrame, h, ih, Conn.nop, Conn.send,
          FrameData.isHb, FrameData.isFatalErr, List.countP_cons,
          List.replicate_succ, List.replicate_succ']
      · simp [Conn.processFrames, Conn.stepFrame, h, ih,
          FrameData.isHb, FrameData.isFatalErr, List.countP_cons]
    | error k =>
      by_cases h : k.nonFatal = true
      · simp [Conn.processFrames, Conn.stepFrame, h, ih,
          FrameData.isHb, FrameData.isFatalErr, List.countP_cons]
      · simp [Conn.processFrames, Conn.stepFrame, h, ih, Conn.close,
          FrameData.isHb, FrameData.isFatalErr, List.countP_cons,
          Bool.eq_false_iff.mpr h]
    | message t a i b =>
      simp [Conn.processFrames, Conn.stepFrame, ih,
        FrameData.isHb, FrameData.isFatalErr, List.countP_cons]

theorem Conn.processFrames_snd (l : List FrameData) (c : Conn) :
    (Conn.processFrames c l).2 =
      (l.filter (fun fd => !fd.isHb)).map
        (fun fd => (⟨(c.host, c.port), fd⟩ : Frame)) := by
  induction l generalizing c with
  | nil => simp [Conn.processFrames]
  | cons fd rest ih =>
    cases fd with
    | response d =>
      by_cases h : d = hbMark
      · simp [Conn.processFrames, Conn.stepFrame, h, ih, Conn.nop, Conn.send,
          FrameData.isHb, List.filter_cons]
      · simp [Conn.processFrames, Conn.stepFrame, h, ih,
          FrameData.isHb, List.filter_cons]
    | error k =>
      by_cases h : k.nonFatal = true
      · simp [Conn.processFrames, Conn.stepFrame, h, ih,
          FrameData.isHb, List.filter_cons]
      · simp [Conn.processFrames, Conn.stepFrame, h, ih, Conn.close,
          FrameData.isHb, List.filter_cons]
    | message t a i b =>
      simp [Conn.processFrames, Conn.stepFrame, ih,
        FrameData.isHb, List.filter_cons]

theorem Conn.drain_fst (c : Conn) :
    (Conn.drain c).1 =
      { c with
        frames := [],
        out_buffer :=
          c.out_buffer ++
            List.replicate (c.frames.countP (fun fd => fd.isHb)) Cmd.nop,
        alive :=
          (c.alive && !(c.frames.any (fun fd => fd.isFatalErr))) &&
            !c.readErr } := by
  cases h : c.readErr <;>
    simp [Conn.drain, h, Conn.processFrames_fst, Conn.close]

theorem Conn.drain_host (c : Conn) : (Conn.drain c).1.host = c.host := by
  rw [Conn.drain_fst]

theorem Conn.drain_port (c : Conn) : (Conn.drain c).1.port = c.port := by
  rw [Conn.drain_fst]

theorem Conn.drain_snd (c : Conn) :
    (Conn.drain c).2 =
      (c.frames.filter (fun fd => !fd.isHb)).map
        (fun fd => (⟨(c.host, c.port), fd⟩ : Frame)) := by
  cases h : c.readErr <;>
    simp [Conn.drain, h, Conn.processFrames_snd]

/-! Readiness-step lemmas: what the three loops of `Client.read` do to
each table slot, and how the responses decompose per readable key. -/

theorem drainAt_none {st : ClientState} {k : Key}
    (hl : lookupConn st.connections k = none) : drainAt st k = [] := by
  simp only [drainAt, hl]

theorem drainAt_some {st : ClientState} {k : Key} {c : Conn}
    (hl : lookupConn st.connections k = some c) :
    drainAt st k = (Conn.drain c).2 := by
  simp only [drainAt, hl]

theorem drainOut_congr {st₁ st₂ : ClientState} (ks : List Key)
    (h : ∀ k ∈ ks, lookupConn st₁.connections k = lookupConn st₂.connections k) :
    drainOut st₁ ks = drainOut st₂ ks := by
  induction ks with
  | nil => rfl
  | cons k rest ih =>
    simp only [drainOut, drainAt]
    rw [h k (List.mem_cons_self k rest),
      ih (fun k' hk' => h k' (List.mem_cons_of_mem _ hk'))]

theorem Client.readFrom_lookup_notMem {ks : List Key} {st : ClientState}
    {k : Key} (h : k ∉ ks) :
    lookupConn (Client.readFrom st ks).1.connections k =
      lookupConn st.connections k := by
  induction ks generalizing st with
  | nil => rfl
  | cons k₀ rest ih =>
    have hne : k ≠ k₀ := fun hc => h (hc ▸ List.mem_cons_self k₀ rest)
    have hrest : k ∉ rest := fun hc => h (List.mem_cons_of_mem _ hc)
    simp only [Client.readFrom]
    cases hl : lookupConn st.connections k₀ with
    | none => exact ih hrest
    | some c =>
      rw [ih hrest]
      exact lookupConn_update_ne hne

theorem Client.readFrom_lookup_mem {ks : List Key} {st : ClientState}
    {k : Key} {c : Conn} (hnd : ks.Nodup) (hmem : k ∈ ks)
    (h : lookupConn st.connections k = some c) :
    lookupConn (Client.readFrom st ks).1.connections k =
      some (Conn.drain c).1 := by
  induction ks generalizing st with
  | nil => simp at hmem
  | cons k₀ rest ih =>
    obtain ⟨hnotin, hnd'⟩ := List.nodup_cons.mp hnd
    by_cases hk : k = k₀
    · subst hk
      simp only [Client.readFrom, h]
      rw [Client.readFrom_lookup_notMem hnotin]
      exact lookupConn_update_self h
    · have hmem' : k ∈ rest := by
        rcases List.mem_cons.mp hmem with h1 | h1
        · exact absurd h1 hk
        · exact h1
      simp only [Client.readFrom]
      cases hl : lookupConn st.connections k₀ with
      | none => exact ih hnd' hmem' h
      | some c₀ =>
        exact ih hnd' hmem' (by rw [lookupConn_update_ne hk]; exact h)

theorem Client.readFrom_snd {ks : List Key} {st : ClientState}
    (hnd : ks.Nodup) :
    (Client.readFrom st ks).2 = drainOut st ks := by
  induction ks generalizing st with
  | nil => rfl
  | cons k rest ih =>
    obtain ⟨hnotin, hnd'⟩ := List.nodup_cons.mp hnd
    cases hl : lookupConn st.connections k with
    | none =>
      simp only [Client.readFrom, drainOut, drainAt, hl]
      simpa using ih hnd'
    | some c =>
      simp only [Client.readFrom, drainOut, drainAt, hl]
      rw [ih hnd']
      have : drainOut
          { st with connections := updateConn st.connections k (Conn.drain c).1 }
          rest = drainOut st rest := by
        refine drainOut_congr rest (fun k' hk' => ?_)
        have : k' ≠ k := fun hc => hnotin (hc ▸ hk')
        exact lookupConn_update_ne this
      rw [this]

theorem Conn.flush_idem (c : Conn) : c.flush.flush = c.flush := rfl

theorem Conn.close_idem (c : Conn) : c.close.close = c.close := rfl

theorem Client.flushAll_lookup (ks : List Key) (st : ClientState) (k : Key) :
    lookupConn (Client.flushAll st ks).connections k =
      (lookupConn st.connections k).map
        (fun c => if k ∈ ks then c.flush else c) := by
  induction ks generalizing st with
  | nil => cases h : lookupConn st.connections k <;> simp [Client.flushAll, h]
  | cons k₀ rest ih =>
    simp only [Client.flushAll]
    cases hl : lookupConn st.connections k₀ with
    | none =>
      rw [ih]
      by_cases hk : k = k₀
      · subst hk
        rw [hl]
        simp
      · simp [List.mem_cons, hk]
    | some c₀ =>
      rw [ih]
      by_cases hk : k = k₀
      · subst hk
        rw [lookupConn_update_self hl, hl]
        by_cases hm : k ∈ rest <;> simp [hm, Conn.flush_idem]
      · rw [lookupConn_update_ne hk]
        simp [List.mem_cons, hk]

theorem Client.closeAll_lookup (ks : List Key) (st : ClientState) (k : Key) :
    lookupConn (Client.closeAll st ks).connections k =
      (lookupConn st.connections k).map
        (fun c => if k ∈ ks then c.close else c) := by
  induction ks generalizing st with
  | nil => cases h : lookupConn st.connections k <;> simp [Client.closeAll, h]
  | cons k₀ rest ih =>
    simp only [Client.closeAll]
    cases hl : lookupConn st.connections k₀ with
    | none =>
      rw [ih]
      by_cases hk : k = k₀
      · subst hk
        rw [hl]
        simp
      · simp [List.mem_cons, hk]
    | some c₀ =>
      rw [ih]
      by_cases hk : k = k₀
      · subst hk
        rw [lookupConn_update_self hl, hl]
        by_cases hm : k ∈ rest <;> simp [hm, Conn.close_idem]
      · rw [lookupConn_update_ne hk]
        simp [List.mem_cons, hk]

theorem liveConns_ne_of_lookup {st : ClientState} {k : Key} {c : Conn}
    (h : lookupConn st.connections k = some c) (ha : c.alive = true) :
    liveConns st ≠ [] := by
  have hmem : (k, c) ∈ st.connections := lookupConn_mem h
  have : c ∈ liveConns st := by
    unfold liveConns
    rw [List.mem_filter]
    exact ⟨List.mem_map.mpr ⟨(k, c), hmem, rfl⟩, ha⟩
  intro hc
  rw [hc] at this
  simp at this

theorem Client.read_eq {sel : Selector} {st : ClientState}
    {rd wr ex : List Key}
    (hlive : liveConns st ≠ [])
    (hsel : sel (liveConns st) ((liveConns st).filter Conn.pending)
        st.timeout = ⟨rd, wr, ex⟩)
    (hne : rd ≠ []) :
    Client.read sel st =
      (Client.closeAll (Client.flushAll (Client.readFrom st rd).1 wr) ex,
        (Client.readFrom st rd).2) := by
  have h1 : (liveConns st).isEmpty = false := by
    cases hl : liveConns st with
    | nil => exact absurd hl hlive
    | cons a l => rfl
  have h2 : rd.isEmpty = false := by
    cases hr : rd with
    | nil => exact absurd hr hne
    | cons a l => rfl
  simp [Client.read, h1, hsel, h2]

/-! Discovery and static-pass lemmas. -/

theorem Client.connect_snd (st : ClientState) (h : String) (p : Nat) :
    (Client.connect st h p).2 =
      (Conn.new h p st.nextId st.identify_options).setblocking false := rfl

theorem Client.connect_nextId (st : ClientState) (h : String) (p : Nat) :
    (Client.connect st h p).1.nextId = st.nextId + 1 := by
  cases hl : lookupConn st.connections (h, p) <;>
    simp [Client.connect, Client.add, Conn.new, Conn.setblocking, hl]

theorem Client.connect_identify (st : ClientState) (h : String) (p : Nat) :
    (Client.connect st h p).1.identify_options = st.identify_options := by
  cases hl : lookupConn st.connections (h, p) <;>
    simp [Client.connect, Client.add, Conn.new, Conn.setblocking, hl]

theorem Client.connect_connections_none {st : ClientState} {h : String}
    {p : Nat} (hl : lookupConn st.connections (h, p) = none) :
    (Client.connect st h p).1.connections =
      st.connections ++
        [((h, p), (Conn.new h p st.nextId st.identify_options).setblocking false)] := by
  simp [Client.connect, Client.add, Conn.new, Conn.setblocking, hl]

theorem Client.connect_connections_some {st : ClientState} {h : String}
    {p : Nat} {c₀ : Conn} (hl : lookupConn st.connections (h, p) = some c₀) :
    (Client.connect st h p).1.connections = st.connections := by
  simp [Client.connect, Client.add, Conn.new, Conn.setblocking, hl]

theorem Client.discoverLoop_lookup (ps : List Key) {st : ClientState}
    {k : Key} {c : Conn} (h : lookupConn st.connections k = some c) :
    lookupConn (Client.discoverLoop st ps).1.connections k =
      if k ∈ ps ∧ c.alive = false then some c.connect else some c := by
  induction ps generalizing st c with
  | nil => simpa [Client.discoverLoop] using h
  | cons hp rest ih =>
    cases hl : lookupConn st.connections hp with
    | none =>
      have hne : k ≠ hp := by
        intro hc
        rw [hc, hl] at h
        exact Option.noConfusion h
      simp only [Client.discoverLoop, hl]
      have h' : lookupConn (Client.connect st hp.1 hp.2).1.connections k
          = some c := by
        rw [Client.connect_connections_none (by rw [Prod.mk.eta]; exact hl)]
        exact lookupConn_append_left h
      rw [ih h']
      simp [List.mem_cons, hne]
    | some c₀ =>
      by_cases halive : c₀.alive = true
      · simp only [Client.discoverLoop, hl, halive, if_true]
        by_cases hk : k = hp
        · have hc : c₀ = c := by
            have h2 := h
            rw [hk, hl] at h2
            exact Option.some.inj h2
          have hca : c.alive = true := hc ▸ halive
          rw [ih h]
          simp [hca]
        · rw [ih h]
          simp [List.mem_cons, hk]
      · have hdead : c₀.alive = false := Bool.not_eq_true _ ▸ eq_false_of_ne_true halive
        simp only [Client.discoverLoop, hl, hdead, Bool.false_eq_true, if_false]
        by_cases hk : k = hp
        · have hc : c₀ = c := by
            have h2 := h
            rw [hk, hl] at h2
            exact Option.some.inj h2
          have hcd : c.alive = false := hc ▸ hdead
          have h' : lookupConn
              (updateConn st.connections hp c₀.connect) k
                = some c₀.connect := by
            rw [hk]
            exact lookupConn_update_self hl
          rw [ih h']
          simp [List.mem_cons, hk, hcd, hc, Conn.connect]
        · have h' : lookupConn
              (updateConn st.connections hp c₀.connect) k = some c := by
            rw [lookupConn_update_ne hk]
            exact h
          rw [ih h']
          simp [List.mem_cons, hk]

theorem Client.staticLoop_lookup {l : List Key} {st : ClientState}
    {k : Key} {c : Conn} (h : lookupConn st.connections k = some c) :
    lookupConn (Client.staticLoop st l).connections k = some c := by
  induction l generalizing st with
  | nil => exact h
  | cons hp rest ih =>
    cases hl : lookupConn st.connections hp with
    | none =>
      simp only [Client.staticLoop, hl]
      refine ih ?_
      rw [Client.connect_connections_none (by rw [Prod.mk.eta]; exact hl)]
      exact lookupConn_append_left h
    | some c₀ =>
      simp only [Client.staticLoop, hl]
      exact ih h

theorem Client.mergedProducers_err {f : LookupFn} {topic : Option String}
    {pre post : List String} {bad : String} {e : Unit}
    (h : f bad topic = .error e) :
    Client.mergedProducers f topic (pre ++ bad :: post) =
      Client.mergedProducers f topic (pre ++ post) := by
  induction pre with
  | nil => simp [Client.mergedProducers, h]
  | cons l rest ih => simp [Client.mergedProducers, ih]

theorem Client.discoverLoop_equiv (ps : List Key) {st st' : ClientState}
    (h1 : st'.connections = st.connections) (h2 : st'.nextId = st.nextId)
    (h3 : st'.identify_options = st.identify_options) :
    (Client.discoverLoop st' ps).1.connections =
        (Client.discoverLoop st ps).1.connections ∧
      (Client.discoverLoop st' ps).1.nextId =
        (Client.discoverLoop st ps).1.nextId ∧
      (Client.discoverLoop st' ps).1.identify_options =
        (Client.discoverLoop st ps).1.identify_options ∧
      (Client.discoverLoop st' ps).2 = (Client.discoverLoop st ps).2 := by
  induction ps generalizing st st' with
  | nil => exact ⟨h1, h2, h3, rfl⟩
  | cons hp rest ih =>
    cases hl : lookupConn st.connections hp with
    | none =>
      have hl' : lookupConn st'.connections hp = none := by rw [h1, hl]
      simp only [Client.discoverLoop, hl, hl']
      have hc1 : (Client.connect st' hp.1 hp.2).1.connections
          = (Client.connect st hp.1 hp.2).1.connections := by
        rw [Client.connect_connections_none (by rw [Prod.mk.eta]; exact hl'),
          Client.connect_connections_none (by rw [Prod.mk.eta]; exact hl),
          h1, h2, h3]
      have hc2 : (Client.connect st' hp.1 hp.2).1.nextId
          = (Client.connect st hp.1 hp.2).1.nextId := by
        rw [Client.connect_nextId, Client.connect_nextId, h2]
      have hc3 : (Client.connect st' hp.1 hp.2).1.identify_options
          = (Client.connect st hp.1 hp.2).1.identify_options := by
        rw [Client.connect_identify, Client.connect_identify, h3]
      obtain ⟨a, b, cc, d⟩ := ih hc1 hc2 hc3
      refine ⟨a, b, cc, ?_⟩
      rw [d, Client.connect_snd, Client.connect_snd, h2, h3]
    | some c₀ =>
      have hl' : lookupConn st'.connections hp = some c₀ := by rw [h1, hl]
      simp only [Client.discoverLoop, hl, hl']
      by_cases halive : c₀.alive = true
      · simp only [halive, if_true]
        exact ih h1 h2 h3
      · have hdead : c₀.alive = false :=
          Bool.not_eq_true _ ▸ eq_false_of_ne_true halive
        simp only [hdead, Bool.false_eq_true, if_false]
        exact ih (by simp [h1]) (by simp [h2]) (by simp [h3])

/-! Facts about the per-key response decomposition. -/

theorem drainOut_mem {st : ClientState} {k : Key} {c : Conn} {x : Frame}
    (hl : lookupConn st.connections k = some c)
    (hx : x ∈ (Conn.drain c).2) :
    ∀ ks : List Key, k ∈ ks → x ∈ drainOut st ks := by
  intro ks hmem
  induction ks with
  | nil => simp at hmem
  | cons k₀ rest ih =>
    simp only [drainOut]
    rcases List.mem_cons.mp hmem with hk | hk
    · refine List.mem_append_left _ ?_
      rw [← hk, drainAt_some hl]
      exact hx
    · exact List.mem_append_right _ (ih hk)

theorem drainOut_no_hb {st : ClientState} {ks : List Key} :
    ∀ f ∈ drainOut st ks, f.data.isHb = false := by
  induction ks with
  | nil => simp [drainOut]
  | cons k rest ih =>
    intro f hf
    simp only [drainOut] at hf
    rcases List.mem_append.mp hf with hf | hf
    · cases hl : lookupConn st.connections k with
      | none => rw [drainAt_none hl] at hf; simp at hf
      | some c =>
        rw [drainAt_some hl, Conn.drain_snd] at hf
        obtain ⟨fd, hfd, hFrame⟩ := List.mem_map.mp hf
        obtain ⟨_, hpred⟩ := List.mem_filter.mp hfd
        rw [← hFrame]
        simpa using hpred
    · exact ih f hf

theorem filterMapComm {α β : Type} (g : α → β) (p : β → Bool) (l : List α) :
    (l.map g).filter p = (l.filter (fun a => p (g a))).map g := by
  induction l with
  | nil => rfl
  | cons a rest ih =>
    by_cases h : p (g a) = true <;>
      simp [List.filter_cons, h, ih]

theorem drainOut_filter_origin_notMem {st : ClientState} {k : Key}
    (hwk : WellKeyed st) :
    ∀ ks : List Key, k ∉ ks →
      (drainOut st ks).filter (fun f => decide (f.origin = k)) = [] := by
  intro ks
  induction ks with
  | nil => simp [drainOut]
  | cons k₀ rest ih =>
    intro hnot
    have hne : k₀ ≠ k := fun hc => hnot (hc ▸ List.mem_cons_self k₀ rest)
    have hrest : k ∉ rest := fun hc => hnot (List.mem_cons_of_mem _ hc)
    simp only [drainOut, List.filter_append]
    rw [ih hrest]
    cases hl : lookupConn st.connections k₀ with
    | none => rw [drainAt_none hl]; simp
    | some c =>
      have hkey : (c.host, c.port) = k₀ := hwk (k₀, c) (lookupConn_mem hl)
      rw [drainAt_some hl, Conn.drain_snd, hkey, filterMapComm]
      simp [hne]

theorem drainOut_filter_origin {st : ClientState} {k : Key} {c : Conn}
    (hwk : WellKeyed st) (hl : lookupConn st.connections k = some c) :
    ∀ ks : List Key, ks.Nodup → k ∈ ks →
      (drainOut st ks).filter (fun f => decide (f.origin = k)) =
        (c.frames.filter (fun fd => !fd.isHb)).map
          (fun fd => (⟨k, fd⟩ : Frame)) := by
  intro ks
  induction ks with
  | nil => intro _ hmem; simp at hmem
  | cons k₀ rest ih =>
    intro hnd hmem
    obtain ⟨hnotin, hnd'⟩ := List.nodup_cons.mp hnd
    simp only [drainOut, List.filter_append]
    by_cases hk : k = k₀
    · subst hk
      rw [drainAt_some hl, drainOut_filter_origin_notMem hwk rest hnotin]
      have hkey : (c.host, c.port) = k := hwk (k, c) (lookupConn_mem hl)
      rw [Conn.drain_snd, hkey, filterMapComm]
      simp
    · have hmem' : k ∈ rest := by
        rcases List.mem_cons.mp hmem with h1 | h1
        · exact absurd h1 hk
        · exact h1
      rw [ih hnd' hmem']
      have hhead : (drainAt st k₀).filter
          (fun f => decide (f.origin = k)) = [] := by
        cases hl₀ : lookupConn st.connections k₀ with
        | none => rw [drainAt_none hl₀]; rfl
        | some c₀ =>
          have hkey : (c₀.host, c₀.port) = k₀ := hwk (k₀, c₀) (lookupConn_mem hl₀)
          rw [drainAt_some hl₀, Conn.drain_snd, hkey, filterMapComm]
          have hne : k₀ ≠ k := fun hc => hk hc.symm
          simp [hne]
      rw [hhead]
      simp

/-! Claim theorems. -/

/-- C1 counterexample: with one lookupd reporting the endpoint of a
present-but-dead connection as a producer, `check_connections` does not
leave that connection's state unchanged: it reopens it in place
(`conn.connect()`), setting it alive and counting a reconnect. -/
theorem check_connections_reopens_discovered_cex :
    lookupConn (Client.check_connections fC1 stC1).connections ("h", 1) =
        some { cDead with alive := true, reconnects := 1 } ∧
      ({ cDead with alive := true, reconnects := 1 } : Conn) ≠ cDead := by
  constructor
  · rfl
  · decide

/-- C1 (amended): for a connection present in the table but not alive,
`check_connections` leaves it untouched when its endpoint is not among
the discovered producers — in particular for statically configured
endpoints — but when the endpoint is discovered, `check_connections`
reopens the dead connection via `conn.connect()`. -/
theorem Client.check_connections_dead (f : LookupFn) (st : ClientState)
    (k : Key) (c : Conn) (h : lookupConn st.connections k = some c)
    (hdead : c.alive = false) :
    (k ∉ Client.mergedProducers f st.topic st.lookupd →
        lookupConn (Client.check_connections f st).connections k = some c) ∧
    (k ∈ Client.mergedProducers f st.topic st.lookupd →
        lookupConn (Client.check_connections f st).connections k =
          some c.connect) := by
  by_cases hemp : st.lookupd.isEmpty = true
  · have hnil : st.lookupd = [] := List.isEmpty_iff.mp hemp
    constructor
    · intro _
      simp only [Client.check_connections, hemp, if_true]
      exact Client.staticLoop_lookup h
    · intro hm
      rw [hnil] at hm
      simp [Client.mergedProducers] at hm
  · have hemp' : st.lookupd.isEmpty = false := eq_false_of_ne_true hemp
    have hd := Client.discoverLoop_lookup
      (Client.mergedProducers f st.topic st.lookupd) h
    constructor
    · intro hnot
      simp only [Client.check_connections, hemp', Bool.false_eq_true, if_false]
      refine Client.staticLoop_lookup ?_
      unfold Client.discover
      rw [hd]
      simp [hnot]
    · intro hm
      simp only [Client.check_connections, hemp', Bool.false_eq_true, if_false]
      refine Client.staticLoop_lookup ?_
      unfold Client.discover
      rw [hd]
      simp [hm, hdead]

/-- C1 witness: the amended theorem applied to the concrete dead
connection of `stC1`. -/
theorem check_connections_dead_witness :
    ((("h", 1) : Key) ∉ Client.mergedProducers fC1 stC1.topic stC1.lookupd →
        lookupConn (Client.check_connections fC1 stC1).connections ("h", 1) =
          some cDead) ∧
      ((("h", 1) : Key) ∈ Client.mergedProducers fC1 stC1.topic stC1.lookupd →
        lookupConn (Client.check_connections fC1 stC1).connections ("h", 1) =
          some cDead.connect) :=
  Client.check_connections_dead fC1 stC1 ("h", 1) cDead rfl rfl

/-- C2: in every `Client.read` step, for every Error frame drained from a
readable connection the Error is appended to the returned sequence; the
connection is still alive afterwards iff all its drained errors are of a
non-fatal kind, and is closed as soon as it drained an error of any other
kind. -/
theorem Client.read_error_frames (sel : Selector) (st : ClientState)
    (rd wr ex : List Key) (k : Key) (c : Conn)
    (hsel : sel (liveConns st) ((liveConns st).filter Conn.pending)
        st.timeout = ⟨rd, wr, ex⟩)
    (hnd : rd.Nodup) (hmem : k ∈ rd) (hex : k ∉ ex)
    (hl : lookupConn st.connections k = some c)
    (ha : c.alive = true) (hre : c.readErr = false) :
    (∀ kd : ErrKind, FrameData.error kd ∈ c.frames →
        (⟨(c.host, c.port), FrameData.error kd⟩ : Frame) ∈
          (Client.read sel st).2) ∧
    ((∀ kd : ErrKind, FrameData.error kd ∈ c.frames → kd.nonFatal = true) →
      ∃ c', lookupConn (Client.read sel st).1.connections k = some c' ∧
        c'.alive = true) ∧
    ((∃ kd : ErrKind, FrameData.error kd ∈ c.frames ∧ kd.nonFatal = false) →
      ∃ c', lookupConn (Client.read sel st).1.connections k = some c' ∧
        c'.alive = false) := by
  have hlive : liveConns st ≠ [] := liveConns_ne_of_lookup hl ha
  have hrdne : rd ≠ [] := by
    intro hc
    rw [hc] at hmem
    simp at hmem
  have hread := Client.read_eq hlive hsel hrdne
  have hresp : (Client.read sel st).2 = drainOut st rd := by
    simp only [hread]
    exact Client.readFrom_snd hnd
  have hx : lookupConn (Client.read sel st).1.connections k =
      some (if k ∈ wr then (Conn.drain c).1.flush else (Conn.drain c).1) := by
    simp only [hread]
    rw [Client.closeAll_lookup, Client.flushAll_lookup,
      Client.readFrom_lookup_mem hnd hmem hl]
    simp [hex]
  refine ⟨?_, ?_, ?_⟩
  · intro kd hkd
    rw [hresp]
    refine drainOut_mem hl ?_ rd hmem
    rw [Conn.drain_snd]
    refine List.mem_map.mpr ⟨FrameData.error kd, ?_, rfl⟩
    refine List.mem_filter.mpr ⟨hkd, ?_⟩
    simp [FrameData.isHb]
  · intro hall
    have hany : (c.frames.any fun fd => fd.isFatalErr) = false := by
      simp only [List.any_eq_false]
      intro fd hfd
      cases fd with
      | response d => simp [FrameData.isFatalErr]
      | error kd => simp [FrameData.isFatalErr, hall kd hfd]
      | message t a i b => simp [FrameData.isFatalErr]
    refine ⟨_, hx, ?_⟩
    by_cases hw : k ∈ wr <;>
      simp [hw, Conn.flush, Conn.drain_fst, ha, hre, hany]
  · intro hfat
    obtain ⟨kd, hkd, hkdf⟩ := hfat
    have hany : (c.frames.any fun fd => fd.isFatalErr) = true := by
      simp only [List.any_eq_true]
      exact ⟨FrameData.error kd, hkd, by simp [FrameData.isFatalErr, hkdf]⟩
    refine ⟨_, hx, ?_⟩
    by_cases hw : k ∈ wr <;>
      simp [hw, Conn.flush, Conn.drain_fst, hany]

/-- C2 witness: the theorem applied to the concrete `stRead` step, whose
connection drains a heartbeat, an `E_FIN_FAILED`, and a message. -/
theorem read_error_frames_witness :
    (∀ kd : ErrKind, FrameData.error kd ∈ cRead.frames →
        (⟨(cRead.host, cRead.port), FrameData.error kd⟩ : Frame) ∈
          (Client.read selRead stRead).2) ∧
      ((∀ kd : ErrKind, FrameData.error kd ∈ cRead.frames →
          kd.nonFatal = true) →
        ∃ c', lookupConn (Client.read selRead stRead).1.connections ("h", 1) =
            some c' ∧ c'.alive = true) ∧
      ((∃ kd : ErrKind, FrameData.error kd ∈ cRead.frames ∧
          kd.nonFatal = false) →
        ∃ c', lookupConn (Client.read selRead stRead).1.connections ("h", 1) =
            some c' ∧ c'.alive = false) :=
  Client.read_error_frames selRead stRead [("h", 1)] [] [] ("h", 1) cRead
    rfl (by decide) (by decide) (by decide) rfl rfl rfl

/-- C3: in every `Client.read` step, no heartbeat Response reaches the
returned sequence, and a drained connection's outbound buffer gains
exactly one `NOP` per heartbeat Response it delivered. -/
theorem Client.read_heartbeats (sel : Selector) (st : ClientState)
    (rd wr ex : List Key) (k : Key) (c : Conn)
    (hsel : sel (liveConns st) ((liveConns st).filter Conn.pending)
        st.timeout = ⟨rd, wr, ex⟩)
    (hnd : rd.Nodup) (hmem : k ∈ rd)
    (hl : lookupConn st.connections k = some c)
    (ha : c.alive = true) :
    (∀ f ∈ (Client.read sel st).2, f.data.isHb = false) ∧
    (∃ c', lookupConn (Client.read sel st).1.connections k = some c' ∧
      c'.out_buffer = c.out_buffer ++
        List.replicate (c.frames.countP fun fd => fd.isHb) Cmd.nop) := by
  have hlive : liveConns st ≠ [] := liveConns_ne_of_lookup hl ha
  have hrdne : rd ≠ [] := by
    intro hc
    rw [hc] at hmem
    simp at hmem
  have hread := Client.read_eq hlive hsel hrdne
  have hresp : (Client.read sel st).2 = drainOut st rd := by
    simp only [hread]
    exact Client.readFrom_snd hnd
  constructor
  · intro f hf
    rw [hresp] at hf
    exact drainOut_no_hb f hf
  · have hx : lookupConn (Client.read sel st).1.connections k =
        some (if k ∈ ex
          then (if k ∈ wr then (Conn.drain c).1.flush
            else (Conn.drain c).1).close
          else (if k ∈ wr then (Conn.drain c).1.flush
            else (Conn.drain c).1)) := by
      simp only [hread]
      rw [Client.closeAll_lookup, Client.flushAll_lookup,
        Client.readFrom_lookup_mem hnd hmem hl]
      simp
    refine ⟨_, hx, ?_⟩
    by_cases hexm : k ∈ ex <;> by_cases hw : k ∈ wr <;>
      simp [hexm, hw, Conn.close, Conn.flush, Conn.drain_fst]

/-- C3 witness: the theorem applied to the concrete `stRead` step. -/
theorem read_heartbeats_witness :
    (∀ f ∈ (Client.read selRead stRead).2, f.data.isHb = false) ∧
      (∃ c', lookupConn (Client.read selRead stRead).1.connections ("h", 1) =
          some c' ∧
        c'.out_buffer = cRead.out_buffer ++
          List.replicate (cRead.frames.countP fun fd => fd.isHb) Cmd.nop) :=
  Client.read_heartbeats selRead stRead [("h", 1)] [] [] ("h", 1) cRead
    rfl (by decide) (by decide) rfl rfl

/-- C4 counterexample: with a non-empty lookupd list and the topic set to
the empty string, construction fails even though a topic was supplied —
the assert tests Python truthiness, not presence. -/
theorem clientInit_empty_topic_cex :
    clientInit (fun _ _ => Except.ok []) (some ["h"]) none (some "") 1 [] =
      Except.error InitError.invalidConfig := rfl

/-- C4 (amended): with a truthy (non-empty) lookupd list and a falsy
(absent or empty) topic, construction fails with `InvalidConfig`; with a
truthy (non-empty) topic, or with a falsy lookupd list, construction
succeeds. -/
theorem clientInit_invalid_config (f : LookupFn)
    (lk : Option (List String)) (nsqd : Option (List Key))
    (topic : Option String) (t : Nat) (idf : List (String × String)) :
    (truthyList lk = true → truthyStr topic = false →
        clientInit f lk nsqd topic t idf =
          Except.error InitError.invalidConfig) ∧
    (truthyStr topic = true →
        ∃ st, clientInit f lk nsqd topic t idf = Except.ok st) ∧
    (truthyList lk = false →
        ∃ st, clientInit f lk nsqd topic t idf = Except.ok st) := by
  refine ⟨fun h1 h2 => ?_, fun h1 => ?_, fun h1 => ?_⟩
  · simp [clientInit, h1, h2]
  · exact ⟨Client.check_connections f
      { identify_options := idf, connections := [], timeout := t,
        lookupd := lk.getD [], topic := topic,
        nsqd_tcp_addresses := nsqd.getD [], nextId := 0 },
      by simp [clientInit, h1]⟩
  · exact ⟨Client.check_connections f
      { identify_options := idf, connections := [], timeout := t,
        lookupd := lk.getD [], topic := topic,
        nsqd_tcp_addresses := nsqd.getD [], nextId := 0 },
      by simp [clientInit, h1]⟩

/-- C4 witness: both branches of the amended theorem at concrete
arguments. -/
theorem clientInit_invalid_config_witness :
    clientInit (fun _ _ => Except.ok []) (some ["h"]) none none 1 [] =
        Except.error InitError.invalidConfig ∧
      ∃ st, clientInit (fun _ _ => Except.ok []) (some ["h"]) none
          (some "t") 1 [] = Except.ok st :=
  ⟨(clientInit_invalid_config _ _ _ _ _ _).1 rfl rfl,
    (clientInit_invalid_config _ _ _ _ _ _).2.1 rfl⟩

/-- C5: for a connection whose endpoint is absent from the table,
`remove` after `add` restores the original table; `remove` on an absent
connection returns `None` and leaves the table unchanged (it never
raises: the miss inside `close_connection` is swallowed). -/
theorem Client.remove_add (st : ClientState) (c : Conn)
    (h : lookupConn st.connections (c.host, c.port) = none) :
    (Client.remove (Client.add st c).1 c).1.connections = st.connections ∧
      (Client.remove st c).1.connections = st.connections ∧
      (Client.remove st c).2 = none := by
  refine ⟨?_, ?_, ?_⟩
  · have hadd : (Client.add st c).1.connections
        = st.connections ++ [((c.host, c.port), c)] := by
      simp [Client.add, h]
    have herase : eraseKey (st.connections ++ [((c.host, c.port), c)])
        (c.host, c.port) = st.connections := by
      unfold eraseKey
      rw [List.filter_append]
      have h1 : List.filter
          (fun kv => !decide (kv.1 = (c.host, c.port)))
          [((c.host, c.port), c)] = [] := by simp
      rw [h1, List.append_nil]
      exact eraseKey_of_lookup_none h
    simp only [Client.remove]
    rw [hadd]
    exact herase
  · simp only [Client.remove]
    exact eraseKey_of_lookup_none h
  · simp [Client.remove, h]

/-- C5 witness: the theorem applied to the concrete absent connection
`cAbs` over the table of `stNoLive`. -/
theorem remove_add_witness :
    (Client.remove (Client.add stNoLive cAbs).1 cAbs).1.connections =
        stNoLive.connections ∧
      (Client.remove stNoLive cAbs).1.connections = stNoLive.connections ∧
      (Client.remove stNoLive cAbs).2 = none :=
  Client.remove_add stNoLive cAbs rfl

/-- C6: `add` inserts the connection and returns it when its
`(host, port)` key is absent, and returns `None` leaving the table
unchanged when an entry with that key already exists. -/
theorem Client.add_spec (st : ClientState) (c : Conn) :
    (lookupConn st.connections (c.host, c.port) = none →
      Client.add st c =
        ({ st with connections :=
            st.connections ++ [((c.host, c.port), c)] }, some c)) ∧
    ∀ c₀, lookupConn st.connections (c.host, c.port) = some c₀ →
      Client.add st c = (st, none) := by
  constructor
  · intro h
    simp [Client.add, h]
  · intro c₀ h
    simp [Client.add, h]

/-- C6 witness: the insert branch of the theorem at concrete inputs. -/
theorem add_spec_witness :
    Client.add stNoLive cAbs =
      ({ stNoLive with connections :=
          stNoLive.connections ++ [((cAbs.host, cAbs.port), cAbs)] },
        some cAbs) :=
  (Client.add_spec stNoLive cAbs).1 rfl

/-- C7: within one `Client.read` step, the frames with a given readable
connection's origin are exactly that connection's wire frames, in order,
with only the heartbeat Responses removed. -/
theorem Client.read_wire_order (sel : Selector) (st : ClientState)
    (rd wr ex : List Key) (k : Key) (c : Conn)
    (hsel : sel (liveConns st) ((liveConns st).filter Conn.pending)
        st.timeout = ⟨rd, wr, ex⟩)
    (hnd : rd.Nodup) (hwk : WellKeyed st) (hmem : k ∈ rd)
    (hl : lookupConn st.connections k = some c)
    (ha : c.alive = true) :
    ((Client.read sel st).2).filter (fun f => decide (f.origin = k)) =
      (c.frames.filter fun fd => !fd.isHb).map
        (fun fd => (⟨k, fd⟩ : Frame)) := by
  have hlive : liveConns st ≠ [] := liveConns_ne_of_lookup hl ha
  have hrdne : rd ≠ [] := by
    intro hc
    rw [hc] at hmem
    simp at hmem
  have hread := Client.read_eq hlive hsel hrdne
  have hresp : (Client.read sel st).2 = drainOut st rd := by
    simp only [hread]
    exact Client.readFrom_snd hnd
  rw [hresp]
  exact drainOut_filter_origin hwk hl rd hnd hmem

/-- C7 witness: the theorem applied to the concrete `stRead` step. -/
theorem read_wire_order_witness :
    ((Client.read selRead stRead).2).filter
        (fun f => decide (f.origin = ("h", 1))) =
      (cRead.frames.filter fun fd => !fd.isHb).map
        (fun fd => (⟨("h", 1), fd⟩ : Frame)) :=
  Client.read_wire_order selRead stRead [("h", 1)] [] [] ("h", 1) cRead
    rfl (by decide) (by unfold WellKeyed; decide) (by decide) rfl rfl

/-- C8: whenever the live snapshot is empty, `Client.read` returns the
state untouched and an empty sequence, for every readiness oracle — the
oracle (the `select` call) is never consulted. -/
theorem Client.read_no_live (st : ClientState) (h : liveConns st = [])
    (sel : Selector) : Client.read sel st = (st, []) := by
  simp [Client.read, h]

/-- C8 witness: the theorem applied to the client whose only connection
is dead. -/
theorem read_no_live_witness :
    Client.read selNone stNoLive = (stNoLive, []) :=
  Client.read_no_live stNoLive rfl selNone

/-- C9: a lookupd whose query raises a `ClientException` contributes
nothing and breaks nothing: discovery over a lookupd list containing the
failing source produces the same table, the same fresh-id supply, and
the same new connections as discovery over the list without it. -/
theorem Client.discover_skips_failed_lookupd (f : LookupFn)
    (topic : Option String) (st st' : ClientState)
    (pre post : List String) (bad : String) (e : Unit)
    (hbad : f bad topic = Except.error e)
    (hl : st.lookupd = pre ++ bad :: post)
    (hl' : st'.lookupd = pre ++ post)
    (h1 : st'.connections = st.connections)
    (h2 : st'.nextId = st.nextId)
    (h3 : st'.identify_options = st.identify_options) :
    (Client.discover f topic st).1.connections =
        (Client.discover f topic st').1.connections ∧
      (Client.discover f topic st).1.nextId =
        (Client.discover f topic st').1.nextId ∧
      (Client.discover f topic st).2 = (Client.discover f topic st').2 := by
  unfold Client.discover
  rw [hl, hl', Client.mergedProducers_err hbad]
  obtain ⟨a, b, _, d⟩ := Client.discoverLoop_equiv
    (Client.mergedProducers f topic (pre ++ post)) h1 h2 h3
  exact ⟨a.symm, b.symm, d.symm⟩

/-- C9 witness: the theorem applied to the concrete pair of clients
`stC9` and `stC9'`. -/
theorem discover_skips_failed_lookupd_witness :
    (Client.discover fC9 (some "t") stC9).1.connections =
        (Client.discover fC9 (some "t") stC9').1.connections ∧
      (Client.discover fC9 (some "t") stC9).1.nextId =
        (Client.discover fC9 (some "t") stC9').1.nextId ∧
      (Client.discover fC9 (some "t") stC9).2 =
        (Client.discover fC9 (some "t") stC9').2 :=
  Client.discover_skips_failed_lookupd fC9 (some "t") stC9 stC9'
    ["a"] ["b"] "bad" () rfl rfl rfl rfl rfl rfl

/-- C10: `connect` on an endpoint already present in the table returns
the freshly constructed connection object; the table keeps the old
entry, and the new object is neither inserted nor closed (it is still
alive as constructed). -/
theorem Client.connect_duplicate (st : ClientState) (h : String) (p : Nat)
    (c₀ : Conn) (hl : lookupConn st.connections (h, p) = some c₀) :
    (Client.connect st h p).2 =
        (Conn.new h p st.nextId st.identify_options).setblocking false ∧
      (Client.connect st h p).1.connections = st.connections ∧
      lookupConn (Client.connect st h p).1.connections (h, p) = some c₀ ∧
      ((Client.connect st h p).2).alive = true := by
  refine ⟨rfl, Client.connect_connections_some hl, ?_, rfl⟩
  rw [Client.connect_connections_some hl]
  exact hl

/-- C10 witness: the theorem applied to the endpoint of the stored dead
connection. -/
theorem connect_duplicate_witness :
    (Client.connect stNoLive "h" 1).2 =
        (Conn.new "h" 1 stNoLive.nextId
          stNoLive.identify_options).setblocking false ∧
      (Client.connect stNoLive "h" 1).1.connections =
        stNoLive.connections ∧
      lookupConn (Client.connect stNoLive "h" 1).1.connections ("h", 1) =
        some cDead ∧
      ((Client.connect stNoLive "h" 1).2).alive = true :=
  Client.connect_duplicate stNoLive "h" 1 cDead rfl

end NsqPy
